import Mathlib

/-!
Verification development for the conversion-risk analysis engine of the au
units library: the abstract operation model, the overflow-boundary algorithm
(MinGood / MaxGood), the truncation-risk classifier, the conversion builder,
and runtime application of operation sequences.

Numeric storage types are modelled by the finite enumeration of arithmetic
representations the engine works with.  Values of every representation are
embedded in the rationals: integer representations hold integers in their
range, and binary floating-point representations hold dyadic rationals
obtained by round-to-nearest-even at the format's precision (exponent range
is unbounded in the model; every value the analysed algorithms produce is far
inside the finite exponent range of the real formats, so no overflow-to-
infinity behaviour is lost).
-/

-- The Batteries rational arithmetic operations are irreducible by default,
-- which blocks kernel evaluation; the engine model must be executable.
attribute [local semireducible] Rat.add Rat.sub Rat.mul Rat.inv

set_option maxRecDepth 10000

namespace AuSpec

/-! ### Dyadic helpers for the binary floating-point value model -/

/-- Integer power of two as a rational, implemented over kernel-accelerated
natural-number exponentiation. -/
def pow2Q (k : ℤ) : ℚ :=
  if 0 ≤ k then (((2 ^ k.toNat : ℕ) : ℤ) : ℚ) else (((2 ^ (-k).toNat : ℕ) : ℤ) : ℚ)⁻¹

/-- Fuel-driven floor of the base-two logarithm of a natural number
(0 for inputs 0 and 1). -/
def natLog2F : Nat → Nat → Nat
  | 0, _ => 0
  | fuel+1, n => if n ≤ 1 then 0 else natLog2F fuel (n / 2) + 1

/-- Floor of the base-two logarithm of a positive rational: the unique e with
2 ^ e ≤ q < 2 ^ (e+1). -/
def ratLog2Floor (q : ℚ) : ℤ :=
  if 1 ≤ q then (natLog2F 5000 ⌊q⌋.toNat : ℤ)
  else -((natLog2F 5000 (⌈q⁻¹⌉.toNat - 1) : ℤ) + 1)

/-- Round a rational to the nearest integer, ties to even. -/
def roundHalfEven (x : ℚ) : ℤ :=
  let n := ⌊x⌋
  let f := x - (n : ℚ)
  if f < 1/2 then n else if 1/2 < f then n + 1 else if n % 2 = 0 then n else n + 1

/-- Round a positive rational to the nearest floating-point value with a
p-bit significand (round to nearest, ties to even). -/
def roundPosQ (p : Nat) (q : ℚ) : ℚ :=
  let k : ℤ := ratLog2Floor q - p + 1
  ((roundHalfEven (q / pow2Q k) : ℤ) : ℚ) * pow2Q k

/-- Round any rational to precision p, IEEE round-to-nearest-even.  This
models the value produced when the host hardware computes or converts into a
binary floating-point format with a p-bit significand. -/
def roundRat (p : Nat) (q : ℚ) : ℚ :=
  if q = 0 then 0 else if 0 < q then roundPosQ p q else -(roundPosQ p (-q))

/-- Truncation toward zero, the semantics of C++ integer conversion and
integer division. -/
def ratTrunc (q : ℚ) : ℤ := if 0 ≤ q then ⌊q⌋ else -⌊-q⌋

/-! ### Representations

The numeric storage kinds the engine analyses: signed and unsigned integers
of 8/16/32/64 bits and the two binary IEEE floating-point formats. -/

/-- Descriptor of a numeric storage kind. -/
inductive Rep where
  | i8 | i16 | i32 | i64
  | u8 | u16 | u32 | u64
  | f32 | f64
deriving DecidableEq, Fintype, Repr

/-- True for the signed integer representations. -/
def isSignedInt : Rep → Bool
  | .i8 | .i16 | .i32 | .i64 => true
  | _ => false

/-- True for the unsigned integer representations.  This also models the
source's is_definitely_unsigned (numeric_limits is specialized for every
representation here). -/
def isUnsigned : Rep → Bool
  | .u8 | .u16 | .u32 | .u64 => true
  | _ => false

/-- True for all integer representations. -/
def isIntRep : Rep → Bool
  | .f32 | .f64 => false
  | _ => true

/-- True for the floating-point representations. -/
def isFloatRep : Rep → Bool
  | .f32 | .f64 => true
  | _ => false

/-- Width in bytes, the model of C++ sizeof. -/
def sizeofRep : Rep → Nat
  | .i8 | .u8 => 1
  | .i16 | .u16 => 2
  | .i32 | .u32 | .f32 => 4
  | .i64 | .u64 | .f64 => 8

/-- Significand precision in bits of a floating-point representation
(unused for integer representations). -/
def floatPrec : Rep → Nat
  | .f32 => 24
  | .f64 => 53
  | _ => 0

/-- Lowest representable value (std numeric_limits lowest). -/
def lowestVal : Rep → ℚ
  | .i8 => -128
  | .i16 => -32768
  | .i32 => -2147483648
  | .i64 => -9223372036854775808
  | .u8 | .u16 | .u32 | .u64 => 0
  | .f32 => -((pow2Q 24 - 1) * pow2Q 104)
  | .f64 => -((pow2Q 53 - 1) * pow2Q 971)

/-- Highest representable value (std numeric_limits max). -/
def maxVal : Rep → ℚ
  | .i8 => 127
  | .i16 => 32767
  | .i32 => 2147483647
  | .i64 => 9223372036854775807
  | .u8 => 255
  | .u16 => 65535
  | .u32 => 4294967295
  | .u64 => 18446744073709551615
  | .f32 => (pow2Q 24 - 1) * pow2Q 104
  | .f64 => (pow2Q 53 - 1) * pow2Q 971

/-- Reduce an exact rational result into a representation: integer types
truncate toward zero (C++ conversion and division semantics), floating-point
types round to nearest even at the format's precision. -/
def roundQ (t : Rep) (q : ℚ) : ℚ :=
  if isIntRep t then ((ratTrunc q : ℤ) : ℚ) else roundRat (floatPrec t) q

/-- Model of static_cast into representation t, for values inside t's range
(the engine only ever casts values it has established to be in range). -/
def castVal (t : Rep) (q : ℚ) : ℚ := roundQ t q

/-- Division as representation t performs it: exact quotient then truncation
for integer t, rounding for floating-point t. -/
def divVal (t : Rep) (a b : ℚ) : ℚ := roundQ t (a / b)

/-- Multiplication as representation t performs it. -/
def mulVal (t : Rep) (a b : ℚ) : ℚ := roundQ t (a * b)

/-! ### Magnitudes and the Magnitude Oracle -/

/-- Modelled from the spec: a Magnitude is an exact, never-zero scale factor
classified as rational (integer or not) or irrational, supporting sign,
absolute value, inverse, numerator/denominator and product.  The exact
symbolic magnitude module is external to the analysed sources, so an
irrational magnitude is carried here as a nonzero rational stand-in for its
real value (the engine only ever asks the Oracle for sign, integrality, and
approximate value-in-representation questions about it). -/
structure Mag where
  val : ℚ
  isRat : Bool
deriving DecidableEq, Repr

/-- Absolute value of a magnitude. -/
def magAbs (m : Mag) : Mag := ⟨|m.val|, m.isRat⟩

/-- Inverse of a magnitude. -/
def magInverse (m : Mag) : Mag := ⟨m.val⁻¹, m.isRat⟩

/-- Numerator of a rational magnitude, as a magnitude. -/
def numeratorMag (m : Mag) : Mag := ⟨(m.val.num : ℚ), true⟩

/-- Denominator of a rational magnitude, as a magnitude. -/
def denominatorMag (m : Mag) : Mag := ⟨(m.val.den : ℚ), true⟩

/-- Integer test for a magnitude (IsInteger in the source). -/
def isIntegerMag (m : Mag) : Bool := m.isRat && decide (m.val.den = 1)

/-- The magnitude one (the empty Magnitude product of the source). -/
def magOne : Mag := ⟨1, true⟩

/-- The magnitude minus one. -/
def magNegOne : Mag := ⟨-1, true⟩

/-- Outcome of asking the Oracle for a magnitude's value in a representation. -/
inductive MagValueResult where
  | ok (v : ℚ)
  | errCannotFit
deriving DecidableEq, Repr

/-- Modelled from the spec: the Magnitude Oracle operation
ValueIn(Representation, M), returning OK(value) when the factor's exact value
is representable in the requested storage and ERR_CANNOT_FIT otherwise
(astronomically large values, non-integers requested in integer storage, or
irrational constants requested as exact values).  For floating-point storage
the Oracle computes the correctly rounded approximation and only fails when
the magnitude falls outside the format's finite range. -/
def getValueResult (t : Rep) (m : Mag) : MagValueResult :=
  if isIntRep t then
    if m.isRat ∧ m.val.den = 1 ∧ lowestVal t ≤ m.val ∧ m.val ≤ maxVal t then .ok m.val
    else .errCannotFit
  else
    if |m.val| ≤ maxVal t then .ok (roundRat (floatPrec t) m.val) else .errCannotFit

/-- Value of a magnitude in a representation; the source's get_value
static-asserts the OK outcome, so the error branch is unreachable in valid
instantiations and is mapped to zero here. -/
def getValue (t : Rep) (m : Mag) : ℚ :=
  match getValueResult t m with
  | .ok v => v
  | .errCannotFit => 0

/-! ### Abstract operations -/

/-- The engine's instruction set (abstract_operations.hh): StaticCast between
representations, MultiplyTypeBy a magnitude staying in one representation,
and OpSequence, a nonempty ordered sequence of operations (sequences may nest,
as the conversion builder produces). -/
inductive Op where
  | staticCast (t u : Rep)
  | multiplyTypeBy (t : Rep) (m : Mag)
  | opSequence (first : Op) (rest : List Op)
deriving Repr

/-- Input representation of an operation (OpInput): for a sequence, the input
of its first operation. -/
def opInput : Op → Rep
  | .staticCast t _ => t
  | .multiplyTypeBy t _ => t
  | .opSequence op _ => opInput op

/-- Output representation of an operation (OpOutput): for a sequence, the
output of its last operation. -/
def opOutput : Op → Rep
  | .staticCast _ u => u
  | .multiplyTypeBy t _ => t
  | .opSequence op [] => opOutput op
  | .opSequence _ (op2 :: rest) => opOutput (.opSequence op2 rest)

/-! ### Limits and the boundary helper values -/

/-- An optional pair (lower, upper) of bounds threaded through a sequence;
absence models the source's void Limits, meaning the representation's natural
bounds. -/
def Limits : Type := Option (ℚ × ℚ)

/-- The void (no-limit) Limits argument. -/
def noLimits : Limits := none

/-- Build a Limits argument from an explicit pair. -/
def someLimits (lo hi : ℚ) : Limits := some (lo, hi)

/-- LowerLimit: the Limits lower bound, or the representation's lowest value
when the Limits argument is void. -/
def lowerLimit (t : Rep) : Limits → ℚ
  | none => lowestVal t
  | some p => p.1

/-- UpperLimit: the Limits upper bound, or the representation's max value
when the Limits argument is void. -/
def upperLimit (t : Rep) : Limits → ℚ
  | none => maxVal t
  | some p => p.2

/-- NegativeLowerLimit: the negated lower limit, except that for a signed
integer representation whose lower limit is the type's lowest value it
returns the type's max (because the magnitude of lowest exceeds max by one). -/
def negativeLowerLimit (t : Rep) (lim : Limits) : ℚ :=
  if isSignedInt t = true ∧ lowerLimit t lim = lowestVal t then maxVal t
  else -(lowerLimit t lim)

/-- ValueIsSourceLowestUnlessDestLimitIsHigher: the higher of source-lowest
and the destination's lower limit, expressed in the source representation. -/
def valueIsSourceLowestUnlessDestLimitIsHigher (t u : Rep) (ulim : Limits) : ℚ :=
  let lowestTInU := castVal u (lowestVal t)
  let uLimit := lowerLimit u ulim
  if lowestTInU ≤ uLimit then castVal t uLimit else lowestVal t

/-- ValueIsSourceHighestUnlessDestLimitIsLower: the lower of source-max and
the destination's upper limit, expressed in the source representation. -/
def valueIsSourceHighestUnlessDestLimitIsLower (t u : Rep) (ulim : Limits) : ℚ :=
  let highestTInU := castVal u (maxVal t)
  let uLimit := upperLimit u ulim
  if uLimit ≤ highestTInU then castVal t uLimit else maxVal t

/-- ValueIsLowestInDestination: the destination's lower limit expressed in
the source representation (the source asserts the round trip is lossless). -/
def valueIsLowestInDestination (t u : Rep) (ulim : Limits) : ℚ :=
  castVal t (lowerLimit u ulim)

/-- ValueIsHighestInDestination: the destination's upper limit expressed in
the source representation. -/
def valueIsHighestInDestination (t u : Rep) (ulim : Limits) : ℚ :=
  castVal t (upperLimit u ulim)

/-- The max_mantissa loop of ValueIsMaxFloatNotExceedingMaxInt: starting from
one, repeatedly set x to x + (x + 1) in float arithmetic while x + 1 still
exceeds x, remembering the last value before the update; the result is the
float value with all significand bits set and exponent zero. -/
def maxMantissaLoop (p : Nat) : Nat → ℚ → ℚ → ℚ
  | 0, _, last => last
  | fuel+1, x, last =>
      if x < roundRat p (x + 1) then
        maxMantissaLoop p fuel (roundRat p (x + roundRat p (x + 1))) x
      else last

/-- Entry point of the max_mantissa computation (fuel covers every precision
in use with room to spare). -/
def maxMantissa (p : Nat) : ℚ := maxMantissaLoop p (2 * p + 8) 1 1

/-- The doubling loop of compute_value: double x in float arithmetic while
the doubled value is still below the float image of the integer max. -/
def doubleUntilLoop (p : Nat) (limit : ℚ) : Nat → ℚ → ℚ
  | 0, x => x
  | fuel+1, x =>
      if roundRat p (x + x) < limit then doubleUntilLoop p limit fuel (roundRat p (x + x)) else x

/-- The compute_value function of ValueIsMaxFloatNotExceedingMaxInt: cast the
integer max into the float format; if it does not exceed max_mantissa it is
exact and is the answer, otherwise double max_mantissa until just below the
cast limit. -/
def computeValueMaxFloat (p : Nat) (intMax : ℚ) : ℚ :=
  let lim := roundRat p intMax
  let mm := maxMantissa p
  if lim ≤ mm then lim else doubleUntilLoop p lim 200 mm

/-- ValueIsMaxFloatNotExceedingMaxInt: the largest value of the floating
source representation t that can be cast to the integer destination u, capped
further by the destination's explicit upper limit. -/
def valueIsMaxFloatNotExceedingMaxInt (t u : Rep) (ulim : Limits) : ℚ :=
  let floatLimit := computeValueMaxFloat (floatPrec t) (maxVal u)
  let explicitLimit := castVal t (upperLimit u ulim)
  if floatLimit ≤ explicitLimit then floatLimit else explicitLimit

/-- The divide_by_mag helper: divide by the magnitude's value in t; on an
Oracle representability failure the source's MagHelper treats this as a
divide by infinity and yields zero. -/
def divideByMag (t : Rep) (x : ℚ) (m : Mag) : ℚ :=
  match getValueResult t m with
  | .ok v => divVal t x v
  | .errCannotFit => 0

/-- The mag_representation_equals helper: value comparison that is false
whenever the Oracle cannot produce the magnitude's value in t. -/
def magRepresentationEquals (t : Rep) (x : ℚ) (m : Mag) : Bool :=
  match getValueResult t m with
  | .ok v => decide (x = v)
  | .errCannotFit => false

/-- LowestOfLimitsDividedByValue: pick whichever limit lands lower after
dividing by the magnitude (the sign of the magnitude decides), then divide. -/
def lowestOfLimitsDividedByValue (t : Rep) (m : Mag) (lim : Limits) : ℚ :=
  divideByMag t (if 0 < m.val then lowerLimit t lim else upperLimit t lim) m

/-- HighestOfLimitsDividedByValue, with the source's two special cases for
signed-integer min being one larger in magnitude than max: when the
magnitude's value in t is t's lowest the bound is one, and when the magnitude
is minus one with an unnarrowed lower limit the bound is t's max. -/
def highestOfLimitsDividedByValue (t : Rep) (m : Mag) (lim : Limits) : ℚ :=
  let relevantLimit := if 0 < m.val then upperLimit t lim else lowerLimit t lim
  if magRepresentationEquals t (lowestVal t) m then 1
  else if m = magNegOne ∧ lowerLimit t lim = lowestVal t then maxVal t
  else divideByMag t relevantLimit m

/-- ClampLowestOfLimitsTimesInverseValue: for a magnitude of absolute value
below one, multiply the relevant limit by the inverse magnitude, clamping to
t's lowest when that product would overflow; when the Oracle cannot even
represent the inverse (ERR_CANNOT_FIT) the bound collapses to t's lowest
(the divide-by-infinity convention). -/
def clampLowestOfLimitsTimesInverseValue (t : Rep) (m : Mag) (lim : Limits) : ℚ :=
  let relevantLimit := if 0 < m.val then lowerLimit t lim else -(upperLimit t lim)
  match getValueResult t (magInverse (magAbs m)) with
  | .errCannotFit => lowestVal t
  | .ok d =>
      let relevantBound :=
        if 0 < m.val then divVal t (lowestVal t) d else -(divVal t (maxVal t) d)
      if relevantLimit ≤ relevantBound then lowestVal t else mulVal t relevantLimit d

/-- ClampHighestOfLimitsTimesInverseValue, the mirror image for the upper
bound, collapsing to t's max on an Oracle representability failure. -/
def clampHighestOfLimitsTimesInverseValue (t : Rep) (m : Mag) (lim : Limits) : ℚ :=
  let relevantLimit := if 0 < m.val then upperLimit t lim else negativeLowerLimit t lim
  match getValueResult t (magInverse (magAbs m)) with
  | .errCannotFit => maxVal t
  | .ok d =>
      let relevantBound :=
        if 0 < m.val then divVal t (maxVal t) d else -(divVal t (lowestVal t) d)
      if relevantBound ≤ relevantLimit then maxVal t else mulVal t relevantLimit d

/-- The abs_is_probably_bigger_than_one test: true when the absolute
magnitude's value in t is at least one, or when the Oracle cannot fit it
(presumed enormous). -/
def absIsProbablyBiggerThanOne (t : Rep) (m : Mag) : Bool :=
  match getValueResult t (magAbs m) with
  | .errCannotFit => true
  | .ok v => decide (1 ≤ v)

/-- IsCompatibleApartFromMaybeOverflow: the Oracle outcome is OK or
ERR_CANNOT_FIT.  Under the spec's two-outcome Oracle contract this is every
outcome; the source structure is kept. -/
def isCompatibleApartFromMaybeOverflow (t : Rep) (m : Mag) : Bool :=
  match getValueResult t m with
  | .ok _ => true
  | .errCannotFit => true

/-! ### MinGood and MaxGood for the primitive operations

These transcribe the layered conditional dispatch of overflow_boundary.hh
into explicit case analysis on the representation kinds (all representations
in the model are arithmetic, so the not-yet-implemented non-arithmetic
placeholder branches do not arise). -/

/-- MinGood of StaticCast(t, u) under a Limits argument on u. -/
def minGoodCast (t u : Rep) (ulim : Limits) : ℚ :=
  if isIntRep t then
    if isUnsigned t then
      -- (U) -> (A)
      valueIsSourceLowestUnlessDestLimitIsHigher t u ulim
    else if isFloatRep u then
      -- (S) -> (F)
      valueIsSourceLowestUnlessDestLimitIsHigher t u ulim
    else if isUnsigned u then
      -- (S) -> (U)
      0
    else if sizeofRep t ≤ sizeofRep u then
      -- (S) -> (S), widening
      valueIsSourceLowestUnlessDestLimitIsHigher t u ulim
    else
      -- (S) -> (S), narrowing
      valueIsLowestInDestination t u ulim
  else if isFloatRep u then
    if sizeofRep t ≤ sizeofRep u then
      -- (F) -> (F), widening
      valueIsSourceLowestUnlessDestLimitIsHigher t u ulim
    else
      -- (F) -> (F), narrowing
      valueIsLowestInDestination t u ulim
  else
    -- (F) -> (I)
    valueIsLowestInDestination t u ulim

/-- MaxGood of StaticCast(t, u) under a Limits argument on u. -/
def maxGoodCast (t u : Rep) (ulim : Limits) : ℚ :=
  if isIntRep t then
    if isIntRep u then
      -- (I) -> (I): compare the two maxima in the common type
      if maxVal t ≤ maxVal u then valueIsSourceHighestUnlessDestLimitIsLower t u ulim
      else valueIsHighestInDestination t u ulim
    else
      -- (I) -> (F)
      valueIsSourceHighestUnlessDestLimitIsLower t u ulim
  else if isFloatRep u then
    if sizeofRep t ≤ sizeofRep u then valueIsSourceHighestUnlessDestLimitIsLower t u ulim
    else valueIsHighestInDestination t u ulim
  else
    -- (F) -> (I)
    valueIsMaxFloatNotExceedingMaxInt t u ulim

/-- MinGood of MultiplyTypeBy(t, m) under a Limits argument. -/
def minGoodMul (t : Rep) (m : Mag) (lim : Limits) : ℚ :=
  if isUnsigned t then 0
  else if isCompatibleApartFromMaybeOverflow t m then
    if absIsProbablyBiggerThanOne t m then lowestOfLimitsDividedByValue t m lim
    else clampLowestOfLimitsTimesInverseValue t m lim
  else 0

/-- MaxGood of MultiplyTypeBy(t, m) under a Limits argument. -/
def maxGoodMul (t : Rep) (m : Mag) (lim : Limits) : ℚ :=
  if isUnsigned t = true ∧ ¬(0 < m.val) then 0
  else if isIntegerMag m then highestOfLimitsDividedByValue t m lim
  else if isIntegerMag (magInverse m) then clampHighestOfLimitsTimesInverseValue t m lim
  else if isCompatibleApartFromMaybeOverflow t m then
    if absIsProbablyBiggerThanOne t m then highestOfLimitsDividedByValue t m lim
    else clampHighestOfLimitsTimesInverseValue t m lim
  else 0

/-- The pair (MinGood, MaxGood) of an operation under a Limits argument.  The
two results are computed together because the sequence case threads both
backward: the bounds of a multi-operation sequence are the bounds of its
first operation under the Limits synthesized (LimitsFor) from the bounds of
the remaining suffix under the caller's Limits. -/
def goodBounds : Op → Limits → ℚ × ℚ
  | .staticCast t u, lim => (minGoodCast t u lim, maxGoodCast t u lim)
  | .multiplyTypeBy t m, lim => (minGoodMul t m lim, maxGoodMul t m lim)
  | .opSequence op [], lim => goodBounds op lim
  | .opSequence op1 (op2 :: rest), lim =>
      goodBounds op1 (some (goodBounds (.opSequence op2 rest) lim))
termination_by op _ => sizeOf op
decreasing_by
  all_goals (simp <;> omega)

/-- MinGood: the minimum input value that does not overflow the operation or
violate the Limits on its output. -/
def minGood (op : Op) (lim : Limits) : ℚ := (goodBounds op lim).1

/-- MaxGood: the maximum input value that does not overflow the operation or
violate the Limits on its output. -/
def maxGood (op : Op) (lim : Limits) : ℚ := (goodBounds op lim).2

/-- MinPossible: the smallest value of the operation's input representation
(the source computes it as LowestOfLimitsDividedByValue with the unit
magnitude and void Limits). -/
def minPossible (op : Op) : ℚ :=
  lowestOfLimitsDividedByValue (opInput op) magOne noLimits

/-- MaxPossible: the largest value of the operation's input representation. -/
def maxPossible (op : Op) : ℚ :=
  highestOfLimitsDividedByValue (opInput op) magOne noLimits

/-- CanOverflowBelow: some input is small enough to overflow, detected as
MinGood sitting strictly above the representation's lowest value. -/
def canOverflowBelow (op : Op) : Bool := decide (minPossible op < minGood op noLimits)

/-- CanOverflowAbove: some input is large enough to overflow. -/
def canOverflowAbove (op : Op) : Bool := decide (maxGood op noLimits < maxPossible op)

/-- MinValueChecker is_too_small: false immediately when overflow below is
impossible, else compare against MinGood. -/
def isTooSmall (op : Op) (x : ℚ) : Bool :=
  if canOverflowBelow op then decide (x < minGood op noLimits) else false

/-- MaxValueChecker is_too_large. -/
def isTooLarge (op : Op) (x : ℚ) : Bool :=
  if canOverflowAbove op then decide (maxGood op noLimits < x) else false

/-- would_input_produce_overflow. -/
def wouldInputProduceOverflow (op : Op) (x : ℚ) : Bool :=
  isTooSmall op x || isTooLarge op x

/-! ### Executing operations (abstract_operations.hh apply_to) -/

/-- The categories by which a magnitude is applied to a numeric value. -/
inductive MagMultiplyApproach where
  | multiply
  | divideByInverse
deriving DecidableEq, Repr

/-- approach_for_multiplying_by_mag: integers multiply directly; inverses of
integers divide by the inverse; everything else multiplies by the (possibly
rounded) representation value. -/
def approachForMultiplyingByMag (m : Mag) : MagMultiplyApproach :=
  if isIntegerMag m then .multiply
  else if isIntegerMag (magInverse m) then .divideByInverse
  else .multiply

/-- apply_to: run an operation on a value.  A StaticCast converts; a
MultiplyTypeBy either multiplies by the magnitude's value in t, or, for the
inverse of an integer, divides by that integer — and when that integer is too
big to represent in t (ERR_CANNOT_FIT) the result is zero for every input, by
the source's DivideTypeByInt specialization; a sequence applies its
operations left to right. -/
def applyOp : Op → ℚ → ℚ
  | .staticCast _ u, x => castVal u x
  | .multiplyTypeBy t m, x =>
      match approachForMultiplyingByMag m with
      | .multiply => mulVal t x (getValue t m)
      | .divideByInverse =>
          match getValueResult t (magInverse m) with
          | .ok d => divVal t x d
          | .errCannotFit => 0
  | .opSequence op [], x => applyOp op x
  | .opSequence op1 (op2 :: rest), x => applyOp (.opSequence op2 rest) (applyOp op1 x)
termination_by op _ => sizeOf op
decreasing_by
  all_goals (simp <;> omega)

/-! ### Truncation risk classification (truncation_risk.hh) -/

/-- The risk descriptors, each tagged with the representation it applies to. -/
inductive TruncationRisk where
  | noTruncationRisk (t : Rep)
  | allNonzeroValues (t : Rep)
  | nonIntegerValues (t : Rep)
  | valuesNotDivisibleBy (t : Rep) (m : Mag)
  | cannotAssessTruncationRiskFor (t : Rep) (op : Op)
deriving Repr

/-- TruncationRiskFor: the classification of which input values lose
information under an operation.  Every representation in the model is
arithmetic, so the cannot-assess branches for non-arithmetic types do not
arise; the source's implementation for sequences of two or more operations is
an intentionally incomplete stub (an empty struct with no type member), which
is modelled by returning none. -/
def truncationRiskFor : Op → Option TruncationRisk
  | .staticCast t u =>
      if isFloatRep t = true ∧ isIntRep u = true then some (.nonIntegerValues t)
      else some (.noTruncationRisk t)
  | .multiplyTypeBy t m =>
      if m.isRat then
        if isIntegerMag m then some (.noTruncationRisk t)
        else if isIntRep t then some (.valuesNotDivisibleBy t (denominatorMag m))
        else some (.noTruncationRisk t)
      else
        if isIntRep t then some (.allNonzeroValues t)
        else some (.noTruncationRisk t)
  | .opSequence op [] => truncationRiskFor op
  | .opSequence _ (_ :: _) => none
termination_by op => sizeOf op
decreasing_by
  all_goals (simp <;> omega)

/-! ### The conversion builder -/

/-- The two strategies for applying a factor. -/
inductive MagKind where
  | default
  | nontrivialRational
deriving DecidableEq, Repr

/-- mag_kind_for: integers, inverses of integers and irrationals are applied
directly; only a genuinely non-integer rational is nontrivial. -/
def magKindFor (m : Mag) : MagKind :=
  if isIntegerMag m || isIntegerMag (magInverse m) || !m.isRat then .default
  else .nontrivialRational

/-- ApplicationStrategyFor: apply a nontrivial rational to an integer
representation as multiply-by-numerator followed by divide-by-denominator
(DivideTypeBy d is MultiplyTypeBy the inverse of d), otherwise as a single
multiplication. -/
def applicationStrategyFor (t : Rep) (m : Mag) : Op :=
  match magKindFor m with
  | .default => .multiplyTypeBy t m
  | .nontrivialRational =>
      if isIntRep t then
        .opSequence (.multiplyTypeBy t (numeratorMag m))
          [.multiplyTypeBy t (magInverse (denominatorMag m))]
      else .multiplyTypeBy t m

/-- Modelled from the spec: promotion to the representation ordinary
arithmetic would compute in (the source's PromotedType, whose implementation
lives outside the analysed files): integer representations narrower than int
promote to int, everything else is unchanged. -/
def promoteRep (r : Rep) : Rep :=
  if isIntRep r = true ∧ sizeofRep r < 4 then .i32 else r

/-- Modelled from the spec: the common representation ordinary arithmetic
selects for a pair (std common_type on the model's arithmetic types): with a
floating operand the wider floating format wins; two integer operands promote
and then the usual arithmetic conversions pick the larger rank, preferring
the unsigned type at equal size. -/
def commonRep (a b : Rep) : Rep :=
  if isFloatRep a = true ∨ isFloatRep b = true then
    if a = .f64 ∨ b = .f64 then .f64
    else if isFloatRep a then a else b
  else
    let a' := promoteRep a
    let b' := promoteRep b
    if a' = b' then a'
    else if sizeofRep a' = sizeofRep b' then (if isUnsigned a' then a' else b')
    else if sizeofRep a' < sizeofRep b' then b' else a'

/-- FullConversionImpl: assemble cast-into-promoted, apply-factor, cast-out,
collapsing the casts that would be identities (the source's partial
specializations for OldRep or NewRep already being the promoted common
representation). -/
def fullConversion (oldRep promoted newRep : Rep) (factor : Mag) : Op :=
  if oldRep = promoted then
    if newRep = promoted then applicationStrategyFor promoted factor
    else .opSequence (applicationStrategyFor promoted factor) [.staticCast promoted newRep]
  else if newRep = promoted then
    .opSequence (.staticCast oldRep promoted) [applicationStrategyFor promoted factor]
  else
    .opSequence (.staticCast oldRep promoted)
      [applicationStrategyFor promoted factor, .staticCast promoted newRep]

/-- ConversionForRepsAndFactor: the full conversion through the promoted
common representation of the two endpoint representations. -/
def conversionForRepsAndFactor (oldRep newRep : Rep) (factor : Mag) : Op :=
  fullConversion oldRep (promoteRep (commonRep oldRep newRep)) newRep factor

/-! ### The spec's description of the builder, for the refinement claim -/

/-- Written from the spec's words for comparison with the source translation:
ApplyFactor expands into multiply-by-numerator then divide-by-denominator
exactly when the factor is a non-integer rational that is not the inverse of
an integer and the promoted representation is an integer one; otherwise it is
a single Scale. -/
def specApplyFactor (p : Rep) (f : Mag) : Op :=
  if f.isRat = true ∧ isIntegerMag f = false ∧ isIntegerMag (magInverse f) = false
      ∧ isIntRep p = true then
    .opSequence (.multiplyTypeBy p (numeratorMag f))
      [.multiplyTypeBy p (magInverse (denominatorMag f))]
  else .multiplyTypeBy p f

/-- Written from the spec's words: BuildConversion produces
Cast(old, promoted); ApplyFactor(promoted, factor); Cast(promoted, new),
omitting each cast step whose endpoint already equals the promoted
representation. -/
def specBuildConversion (oldRep newRep : Rep) (f : Mag) : Op :=
  let p := promoteRep (commonRep oldRep newRep)
  let a := specApplyFactor p f
  if oldRep = p ∧ newRep = p then a
  else if oldRep = p then .opSequence a [.staticCast p newRep]
  else if newRep = p then .opSequence (.staticCast oldRep p) [a]
  else .opSequence (.staticCast oldRep p) [a, .staticCast p newRep]

/-! ### Well-formed Limits -/

/-- The invariant the source documents for every Limits argument it
synthesizes: the lower bound is non-positive and the upper bound is
non-negative (the void Limits argument trivially satisfies it, since every
representation contains zero). -/
def wfLimits : Limits → Prop
  | none => True
  | some p => p.1 ≤ 0 ∧ 0 ≤ p.2

/-! ## Equation lemmas for the bounds of the individual operation kinds -/

/-- MinGood of a cast is the cast dispatch tree. -/
theorem minGood_cast_eq (t u : Rep) (lim : Limits) :
    minGood (.staticCast t u) lim = minGoodCast t u lim := by
  simp [minGood, goodBounds]

/-- MaxGood of a cast is the cast dispatch tree. -/
theorem maxGood_cast_eq (t u : Rep) (lim : Limits) :
    maxGood (.staticCast t u) lim = maxGoodCast t u lim := by
  simp [maxGood, goodBounds]

/-- MinGood of a scale is the multiply dispatch tree. -/
theorem minGood_mul_eq (t : Rep) (m : Mag) (lim : Limits) :
    minGood (.multiplyTypeBy t m) lim = minGoodMul t m lim := by
  simp [minGood, goodBounds]

/-- MaxGood of a scale is the multiply dispatch tree. -/
theorem maxGood_mul_eq (t : Rep) (m : Mag) (lim : Limits) :
    maxGood (.multiplyTypeBy t m) lim = maxGoodMul t m lim := by
  simp [maxGood, goodBounds]

/-- C1: for every operation sequence of two or more operations and every
caller-supplied Limits, MinGood (resp. MaxGood) of the whole sequence equals
MinGood (resp. MaxGood) of the first operation evaluated under Limits
synthesized from the MinGood/MaxGood of the remaining suffix of the sequence
evaluated under the caller's Limits. -/
theorem sequence_bounds_propagate_back_to_front (op1 op2 : Op) (rest : List Op) (lim : Limits) :
    minGood (.opSequence op1 (op2 :: rest)) lim
      = minGood op1 (someLimits (minGood (.opSequence op2 rest) lim)
                                (maxGood (.opSequence op2 rest) lim))
    ∧ maxGood (.opSequence op1 (op2 :: rest)) lim
      = maxGood op1 (someLimits (minGood (.opSequence op2 rest) lim)
                                (maxGood (.opSequence op2 rest) lim)) := by
  constructor <;> simp [minGood, maxGood, goodBounds, someLimits]

/-- Signed integer representations are not unsigned. -/
theorem isSignedInt_not_unsigned {t : Rep} (h : isSignedInt t = true) : isUnsigned t = false := by
  cases t <;> simp_all [isSignedInt, isUnsigned]

/-- In no representation is minus one the lowest value, so the first special
case of HighestOfLimitsDividedByValue never fires for the magnitude minus
one. -/
theorem magRepEquals_lowest_negOne (t : Rep) :
    magRepresentationEquals t (lowestVal t) magNegOne = false := by
  cases t <;> decide

/-- C5: for Scale by magnitude minus one on a signed integer representation
with no narrower lower limit, MaxGood is special-cased to the
representation's max value, sidestepping the self-contradictory result of
dividing the type's lowest value by minus one. -/
theorem scale_by_minus_one_signed_max_good (t : Rep) (lim : Limits)
    (hs : isSignedInt t = true) (hlow : lowerLimit t lim = lowestVal t) :
    maxGood (.multiplyTypeBy t magNegOne) lim = maxVal t := by
  rw [maxGood_mul_eq]
  unfold maxGoodMul
  rw [if_neg (by simp [isSignedInt_not_unsigned hs])]
  rw [if_pos (by decide)]
  unfold highestOfLimitsDividedByValue
  rw [if_neg (by simp [magRepEquals_lowest_negOne t])]
  rw [if_pos ⟨rfl, hlow⟩]

/-- C5 witness at int8 with void Limits. -/
theorem scale_by_minus_one_signed_max_good_witness :
    isSignedInt .i8 = true ∧ lowerLimit .i8 noLimits = lowestVal .i8
      ∧ maxGood (.multiplyTypeBy .i8 magNegOne) noLimits = maxVal .i8 :=
  ⟨by decide, by decide,
    scale_by_minus_one_signed_max_good .i8 noLimits (by decide) (by decide)⟩

/-- C7: for every unsigned integer representation and every negative
magnitude, Scale has MinGood = MaxGood = 0: zero is the only input value that
does not overflow. -/
theorem scale_unsigned_by_negative_collapses_to_zero (t : Rep) (m : Mag) (lim : Limits)
    (hu : isUnsigned t = true) (hneg : m.val < 0) :
    minGood (.multiplyTypeBy t m) lim = 0 ∧ maxGood (.multiplyTypeBy t m) lim = 0 := by
  constructor
  · rw [minGood_mul_eq]; unfold minGoodMul; rw [if_pos hu]
  · rw [maxGood_mul_eq]; unfold maxGoodMul
    rw [if_pos ⟨hu, not_lt.mpr (le_of_lt hneg)⟩]

/-- C7 witness: Scale(uint32, -2) has MinGood = MaxGood = 0. -/
theorem scale_unsigned_by_negative_collapses_to_zero_witness :
    isUnsigned .u32 = true ∧ (Mag.mk (-2) true).val < 0
      ∧ minGood (.multiplyTypeBy .u32 ⟨-2, true⟩) noLimits = 0
      ∧ maxGood (.multiplyTypeBy .u32 ⟨-2, true⟩) noLimits = 0 :=
  ⟨by decide, by decide,
    (scale_unsigned_by_negative_collapses_to_zero .u32 ⟨-2, true⟩ noLimits
      (by decide) (by decide)).1,
    (scale_unsigned_by_negative_collapses_to_zero .u32 ⟨-2, true⟩ noLimits
      (by decide) (by decide)).2⟩

/-- C6: when the Oracle reports ERR_CANNOT_FIT for the inverse-of-magnitude
value a Scale bound needs, the bound for that direction collapses to the
representation's own extreme, and the failure is absorbed locally: the clamp
helpers return the plain extreme values, and the MinGood/MaxGood a caller
sees on the paths that consult the inverse are exactly those extremes — no
error is surfaced. -/
theorem oracle_cannot_fit_collapses_to_extremes (t : Rep) (m : Mag) (lim : Limits)
    (herr : getValueResult t (magInverse (magAbs m)) = .errCannotFit) :
    clampLowestOfLimitsTimesInverseValue t m lim = lowestVal t
    ∧ clampHighestOfLimitsTimesInverseValue t m lim = maxVal t
    ∧ (isUnsigned t = false → absIsProbablyBiggerThanOne t m = false →
        minGood (.multiplyTypeBy t m) lim = lowestVal t)
    ∧ (isIntegerMag m = false → isIntegerMag (magInverse m) = true →
        (isUnsigned t = false ∨ 0 < m.val) →
        maxGood (.multiplyTypeBy t m) lim = maxVal t) := by
  have hlow : clampLowestOfLimitsTimesInverseValue t m lim = lowestVal t := by
    unfold clampLowestOfLimitsTimesInverseValue
    rw [herr]
  have hhigh : clampHighestOfLimitsTimesInverseValue t m lim = maxVal t := by
    unfold clampHighestOfLimitsTimesInverseValue
    rw [herr]
  refine ⟨hlow, hhigh, ?_, ?_⟩
  · intro hu habs
    rw [minGood_mul_eq]
    unfold minGoodMul
    rw [if_neg (by simp [hu]), if_pos ?_, if_neg (by simp [habs])]
    · exact hlow
    · unfold isCompatibleApartFromMaybeOverflow
      cases getValueResult t m <;> simp
  · intro hni hinv hpos
    rw [maxGood_mul_eq]
    unfold maxGoodMul
    rw [if_neg ?_, if_neg (by simp [hni]), if_pos hinv]
    · exact hhigh
    · rcases hpos with hu | hp
      · simp [hu]
      · simp [hp]

/-- C6 witness: scaling float by ten to the minus fortieth power, whose
inverse overflows the float range. -/
theorem oracle_cannot_fit_collapses_to_extremes_witness :
    getValueResult .f32
        (magInverse (magAbs ⟨1/10000000000000000000000000000000000000000, true⟩))
      = .errCannotFit
    ∧ clampLowestOfLimitsTimesInverseValue .f32
        ⟨1/10000000000000000000000000000000000000000, true⟩ noLimits = lowestVal .f32
    ∧ minGood (.multiplyTypeBy .f32 ⟨1/10000000000000000000000000000000000000000, true⟩)
        noLimits = lowestVal .f32 :=
  ⟨by decide,
    (oracle_cannot_fit_collapses_to_extremes .f32 _ noLimits (by decide)).1,
    (oracle_cannot_fit_collapses_to_extremes .f32 _ noLimits (by decide)).2.2.1
      (by decide) (by decide)⟩

/-- C10: when a Scale's magnitude is the inverse of an integer too large to
represent in the value type (the Oracle reports ERR_CANNOT_FIT for the
divisor), executing the operation returns zero for every input value rather
than an error. -/
theorem apply_divide_by_unrepresentable_yields_zero (t : Rep) (m : Mag) (x : ℚ)
    (hni : isIntegerMag m = false) (hinv : isIntegerMag (magInverse m) = true)
    (herr : getValueResult t (magInverse m) = .errCannotFit) :
    applyOp (.multiplyTypeBy t m) x = 0 := by
  have happ : approachForMultiplyingByMag m = .divideByInverse := by
    unfold approachForMultiplyingByMag
    rw [if_neg (by simp [hni]), if_pos hinv]
  simp [applyOp, happ, herr]

/-- C10 witness: applying Scale(uint8, 1/256) to 1 yields 0. -/
theorem apply_divide_by_unrepresentable_yields_zero_witness :
    isIntegerMag ⟨1/256, true⟩ = false
    ∧ isIntegerMag (magInverse ⟨1/256, true⟩) = true
    ∧ getValueResult .u8 (magInverse ⟨1/256, true⟩) = .errCannotFit
    ∧ applyOp (.multiplyTypeBy .u8 ⟨1/256, true⟩) 1 = 0 :=
  ⟨by decide, by decide, by decide,
    apply_divide_by_unrepresentable_yields_zero .u8 ⟨1/256, true⟩ 1
      (by decide) (by decide) (by decide)⟩

/-- C4: TruncationRiskFor on Scale(t, m) classifies exactly as the spec's
five cases: integer magnitudes carry no risk for any representation;
a non-integer rational on an integer representation risks the values not
divisible by its denominator; a non-integer rational on a floating
representation carries no risk; an irrational on an integer representation
puts every nonzero value at risk; an irrational on a floating representation
carries no risk. -/
theorem scale_truncation_risk_classification (t : Rep) (m : Mag) :
    (isIntegerMag m = true →
      truncationRiskFor (.multiplyTypeBy t m) = some (.noTruncationRisk t))
    ∧ (m.isRat = true → isIntegerMag m = false → isIntRep t = true →
      truncationRiskFor (.multiplyTypeBy t m)
        = some (.valuesNotDivisibleBy t (denominatorMag m)))
    ∧ (m.isRat = true → isIntegerMag m = false → isFloatRep t = true →
      truncationRiskFor (.multiplyTypeBy t m) = some (.noTruncationRisk t))
    ∧ (m.isRat = false → isIntRep t = true →
      truncationRiskFor (.multiplyTypeBy t m) = some (.allNonzeroValues t))
    ∧ (m.isRat = false → isFloatRep t = true →
      truncationRiskFor (.multiplyTypeBy t m) = some (.noTruncationRisk t)) := by
  have hfl : ∀ s : Rep, isFloatRep s = true → isIntRep s = false := by
    intro s hs; cases s <;> simp_all [isFloatRep, isIntRep]
  refine ⟨?_, ?_, ?_, ?_, ?_⟩
  · intro h1
    have hr : m.isRat = true := by
      have h := h1; unfold isIntegerMag at h; simp at h; exact h.1
    simp [truncationRiskFor, hr, h1]
  · intro hr hni hint
    simp [truncationRiskFor, hr, hni, hint]
  · intro hr hni hflt
    simp [truncationRiskFor, hr, hni, hfl t hflt]
  · intro hr hint
    simp [truncationRiskFor, hr, hint]
  · intro hr hflt
    simp [truncationRiskFor, hr, hfl t hflt]

/-- C4 witness: Scale(int16, 1/3) risks values not divisible by 3, and
Scale(float, irrational) carries no risk. -/
theorem scale_truncation_risk_classification_witness :
    (Mag.mk (1/3) true).isRat = true ∧ isIntegerMag ⟨1/3, true⟩ = false
      ∧ isIntRep .i16 = true
      ∧ truncationRiskFor (.multiplyTypeBy .i16 ⟨1/3, true⟩)
          = some (.valuesNotDivisibleBy .i16 ⟨3, true⟩)
      ∧ truncationRiskFor (.multiplyTypeBy .f32 ⟨314159/100000, false⟩)
          = some (.noTruncationRisk .f32) :=
  ⟨by decide, by decide, by decide,
    by
      have h := (scale_truncation_risk_classification .i16 ⟨1/3, true⟩).2.1
        (by decide) (by decide) (by decide)
      rw [h]
      unfold denominatorMag
      have hden : (((1/3 : ℚ).den : ℤ) : ℚ) = (3 : ℚ) := by decide
      norm_num [hden],
    (scale_truncation_risk_classification .f32 ⟨314159/100000, false⟩).2.2.2.2
      (by decide) (by decide)⟩

/-- The source's ApplicationStrategyFor agrees with the spec's description of
ApplyFactor for every promoted representation and factor. -/
theorem applicationStrategyFor_eq_spec (p : Rep) (f : Mag) :
    applicationStrategyFor p f = specApplyFactor p f := by
  unfold applicationStrategyFor specApplyFactor magKindFor
  by_cases h1 : isIntegerMag f = true
  · simp [h1]
  · by_cases h2 : isIntegerMag (magInverse f) = true
    · simp [h1, h2]
    · by_cases h3 : f.isRat = true
      · by_cases h4 : isIntRep p = true <;> simp [h1, h2, h3, h4]
      · simp [h1, h2, h3]

/-- C8: BuildConversion produces the sequence Cast(old, promoted),
ApplyFactor(promoted, factor), Cast(promoted, new) — with the corresponding
cast omitted whenever an endpoint already equals the promoted representation
— and ApplyFactor expands into multiply-by-numerator followed by
divide-by-denominator exactly when the factor is a non-integer rational that
is not the inverse of an integer and the promoted representation is an
integer one; otherwise it is a single Scale.  Stated as agreement of the
source translation with the definition written from the spec's words. -/
theorem build_conversion_matches_spec (oldRep newRep : Rep) (f : Mag) :
    conversionForRepsAndFactor oldRep newRep f = specBuildConversion oldRep newRep f := by
  unfold conversionForRepsAndFactor specBuildConversion fullConversion
  rw [applicationStrategyFor_eq_spec]
  generalize promoteRep (commonRep oldRep newRep) = p
  by_cases h1 : oldRep = p <;> by_cases h2 : newRep = p <;> simp [h1, h2]

/-- Concrete evaluation of the identity-cast bounds and overflow flags over
the whole finite universe of representations. -/
theorem identity_cast_bounds_eval :
    ∀ t : Rep, minGoodCast t t noLimits = lowestVal t
      ∧ maxGoodCast t t noLimits = maxVal t
      ∧ decide (minPossible (Op.staticCast t t) < minGoodCast t t noLimits) = false
      ∧ decide (maxGoodCast t t noLimits < maxPossible (Op.staticCast t t)) = false := by
  decide

/-- C3: for every representation, the identity cast can overflow in neither
direction: MinGood and MaxGood are the representation's own natural extremes
(the source's MinGood/MaxGood encoding of the CannotOverflow sentinel, which
holds exactly when the bound is not strictly inside the natural extremes),
and both CanOverflow flags are false. -/
theorem identity_cast_cannot_overflow (t : Rep) :
    minGood (.staticCast t t) noLimits = lowestVal t
    ∧ maxGood (.staticCast t t) noLimits = maxVal t
    ∧ canOverflowBelow (.staticCast t t) = false
    ∧ canOverflowAbove (.staticCast t t) = false := by
  obtain ⟨h1, h2, h3, h4⟩ := identity_cast_bounds_eval t
  refine ⟨?_, ?_, ?_, ?_⟩
  · rw [minGood_cast_eq]; exact h1
  · rw [maxGood_cast_eq]; exact h2
  · unfold canOverflowBelow; rw [minGood_cast_eq]; exact h3
  · unfold canOverflowAbove; rw [maxGood_cast_eq]; exact h4

/-- The dyadic power helper agrees with integer powers of two. -/
theorem pow2Q_eq_zpow (k : ℤ) : pow2Q k = (2 : ℚ) ^ k := by
  unfold pow2Q
  by_cases h : 0 ≤ k
  · rw [if_pos h]
    push_cast
    rw [← zpow_natCast, Int.toNat_of_nonneg h]
  · rw [if_neg h]
    have hcast : (((2 ^ (-k).toNat : ℕ) : ℤ) : ℚ) = (2 : ℚ) ^ (-k) := by
      push_cast
      rw [← zpow_natCast, Int.toNat_of_nonneg (by omega : (0:ℤ) ≤ -k)]
    rw [hcast, ← zpow_neg, neg_neg]

/-- Arithmetic heart of the float-to-int64 boundary: no value with a 24-bit
significand lies in the gap between the computed boundary and the int64 max. -/
theorem float24_representable_le (m : ℤ) (e : ℤ)
    (hm : m.natAbs < 2 ^ 24)
    (h : (m : ℚ) * (2 : ℚ) ^ e ≤ 9223372036854775807) :
    (m : ℚ) * (2 : ℚ) ^ e ≤ 9223372036854775808 - 549755813888 := by
  have hpow : (0 : ℚ) < (2 : ℚ) ^ e := zpow_pos (by norm_num) e
  rcases le_or_lt (m : ℚ) 0 with hm0 | hm0
  · have : (m : ℚ) * (2 : ℚ) ^ e ≤ 0 := mul_nonpos_of_nonpos_of_nonneg hm0 (le_of_lt hpow)
    linarith
  · have hmZ : (0 : ℤ) < m := by exact_mod_cast hm0
    have hm1 : (1 : ℤ) ≤ m := hmZ
    have hmle : m ≤ 2 ^ 24 - 1 := by omega
    rcases le_or_lt e 0 with he0 | he0
    · have hple : (2 : ℚ) ^ e ≤ 1 := zpow_le_one_of_nonpos₀ (by norm_num) he0
      have h1 : (m : ℚ) * (2 : ℚ) ^ e ≤ (m : ℚ) * 1 :=
        mul_le_mul_of_nonneg_left hple (le_of_lt hm0)
      have h2 : (m : ℚ) ≤ 2 ^ 24 - 1 := by exact_mod_cast hmle
      norm_num at h1 h2 ⊢
      linarith
    · obtain ⟨n, rfl⟩ : ∃ n : ℕ, e = (n : ℤ) :=
        ⟨e.toNat, (Int.toNat_of_nonneg (le_of_lt he0)).symm⟩
      rw [zpow_natCast] at h ⊢
      have hq : m * 2 ^ n ≤ 9223372036854775807 := by exact_mod_cast h
      suffices hZ : m * (2 : ℤ) ^ n ≤ 9223372036854775808 - 549755813888 by
        exact_mod_cast hZ
      rcases lt_or_le n 63 with hn | hn
      · interval_cases n <;> omega
      · exfalso
        have h2 : (2 : ℤ) ^ 63 ≤ 2 ^ n := pow_le_pow_right₀ (by norm_num) hn
        have h3 : (2 : ℤ) ^ n ≤ m * 2 ^ n :=
          le_mul_of_one_le_left (pow_nonneg (by norm_num) n) hm1
        have h4 : (9223372036854775808 : ℤ) ≤ m * 2 ^ n := by
          calc (9223372036854775808 : ℤ) = 2 ^ 63 := by norm_num
            _ ≤ 2 ^ n := h2
            _ ≤ m * 2 ^ n := h3
        omega

/-- C2: for a cast from a floating type to an integer type, MaxGood is the
greatest value representable in the floating type that converts without
rounding past the integer's maximum (computed by the doubling of the maximal
all-ones-significand pattern).  In particular MaxGood(Cast(double, int32))
equals 2147483647.0 exactly; MaxGood(Cast(float, int64)) is the float just
below two to the sixty-third power and is strictly less than the
naively-cast float image of int64 max; and no float value — every such value
being a 24-bit significand times a power of two — lies between the computed
boundary and the int64 max. -/
theorem cast_float_to_int_max_good_boundary :
    maxGood (.staticCast .f64 .i32) noLimits = 2147483647
    ∧ maxGood (.staticCast .f32 .i64) noLimits = 9223372036854775808 - 549755813888
    ∧ maxGood (.staticCast .f32 .i64) noLimits < castVal .f32 (maxVal .i64)
    ∧ (∀ mnt e : ℤ, mnt.natAbs < 2 ^ 24 →
        (mnt : ℚ) * pow2Q e ≤ maxVal .i64 →
        (mnt : ℚ) * pow2Q e ≤ maxGood (.staticCast .f32 .i64) noLimits) := by
  have h1 : maxGood (.staticCast .f64 .i32) noLimits = 2147483647 := by
    rw [maxGood_cast_eq]; decide
  have h2 : maxGood (.staticCast .f32 .i64) noLimits
      = 9223372036854775808 - 549755813888 := by
    rw [maxGood_cast_eq]; decide
  refine ⟨h1, h2, ?_, ?_⟩
  · rw [h2]
    decide
  · intro mnt e hm hle
    rw [h2]
    rw [pow2Q_eq_zpow] at hle
    rw [pow2Q_eq_zpow]
    have hmax : maxVal .i64 = (9223372036854775807 : ℚ) := rfl
    rw [hmax] at hle
    exact float24_representable_le mnt e hm hle

/-- C2 witness: instantiating the greatest-representable bound at the value
one (significand one, exponent zero). -/
theorem cast_float_to_int_max_good_boundary_witness :
    (1 : ℤ).natAbs < 2 ^ 24
    ∧ ((1 : ℤ) : ℚ) * pow2Q 0 ≤ maxVal .i64
    ∧ ((1 : ℤ) : ℚ) * pow2Q 0 ≤ maxGood (.staticCast .f32 .i64) noLimits :=
  ⟨by decide, by decide,
    cast_float_to_int_max_good_boundary.2.2.2 1 0 (by decide) (by decide)⟩

/-! ## The sign invariant: MinGood non-positive, MaxGood non-negative -/

/-- Powers of two are positive. -/
theorem pow2Q_pos (k : ℤ) : 0 < pow2Q k := by
  rw [pow2Q_eq_zpow]; exact zpow_pos (by norm_num) k

/-- Rounding to the nearest integer preserves non-negativity. -/
theorem roundHalfEven_nonneg {x : ℚ} (h : 0 ≤ x) : 0 ≤ roundHalfEven x := by
  unfold roundHalfEven
  have hn : (0:ℤ) ≤ ⌊x⌋ := Int.floor_nonneg.mpr h
  dsimp only
  split
  · exact hn
  · split
    · omega
    · split <;> omega

/-- Rounding a non-negative rational at any precision stays non-negative. -/
theorem roundPosQ_nonneg (p : Nat) {q : ℚ} (h : 0 ≤ q) : 0 ≤ roundPosQ p q := by
  unfold roundPosQ
  dsimp only
  have h1 : (0:ℚ) ≤ ((roundHalfEven (q / pow2Q (ratLog2Floor q - p + 1)) : ℤ) : ℚ) := by
    exact_mod_cast roundHalfEven_nonneg (div_nonneg h (le_of_lt (pow2Q_pos _)))
  exact mul_nonneg h1 (le_of_lt (pow2Q_pos _))

/-- Float rounding preserves non-negativity. -/
theorem roundRat_nonneg (p : Nat) {q : ℚ} (h : 0 ≤ q) : 0 ≤ roundRat p q := by
  unfold roundRat
  rcases eq_or_lt_of_le h with heq | hlt
  · rw [if_pos heq.symm]
  · rw [if_neg (ne_of_gt hlt), if_pos hlt]
    exact roundPosQ_nonneg p h

/-- Float rounding preserves non-positivity. -/
theorem roundRat_nonpos (p : Nat) {q : ℚ} (h : q ≤ 0) : roundRat p q ≤ 0 := by
  unfold roundRat
  rcases eq_or_lt_of_le h with heq | hlt
  · rw [if_pos heq]
  · rw [if_neg (ne_of_lt hlt), if_neg (not_lt.mpr (le_of_lt hlt))]
    have := roundPosQ_nonneg p (neg_nonneg.mpr (le_of_lt hlt))
    linarith

/-- Truncation toward zero preserves non-negativity. -/
theorem ratTrunc_nonneg {q : ℚ} (h : 0 ≤ q) : (0:ℚ) ≤ ((ratTrunc q : ℤ) : ℚ) := by
  unfold ratTrunc
  rw [if_pos h]
  exact_mod_cast Int.floor_nonneg.mpr h

/-- Truncation toward zero preserves non-positivity. -/
theorem ratTrunc_nonpos {q : ℚ} (h : q ≤ 0) : ((ratTrunc q : ℤ) : ℚ) ≤ 0 := by
  unfold ratTrunc
  by_cases h0 : 0 ≤ q
  · have hq : q = 0 := le_antisymm h h0
    rw [if_pos h0, hq]
    simp
  · rw [if_neg h0]
    have hfl : (0:ℤ) ≤ ⌊-q⌋ := Int.floor_nonneg.mpr (by linarith)
    push_cast
    have : (0:ℚ) ≤ (⌊-q⌋ : ℚ) := by exact_mod_cast hfl
    linarith

/-- Reduction into any representation preserves non-negativity. -/
theorem roundQ_nonneg (t : Rep) {q : ℚ} (h : 0 ≤ q) : 0 ≤ roundQ t q := by
  unfold roundQ
  split
  · exact ratTrunc_nonneg h
  · exact roundRat_nonneg _ h

/-- Reduction into any representation preserves non-positivity. -/
theorem roundQ_nonpos (t : Rep) {q : ℚ} (h : q ≤ 0) : roundQ t q ≤ 0 := by
  unfold roundQ
  split
  · exact ratTrunc_nonpos h
  · exact roundRat_nonpos _ h

/-- Every representation's lowest value is non-positive. -/
theorem lowestVal_nonpos (t : Rep) : lowestVal t ≤ 0 := by
  cases t <;> decide

/-- Every representation's max value is non-negative. -/
theorem maxVal_nonneg (t : Rep) : 0 ≤ maxVal t := by
  cases t <;> decide

/-- Under well-formed Limits the lower limit of any representation is
non-positive. -/
theorem lowerLimit_nonpos (t : Rep) (lim : Limits) (h : wfLimits lim) :
    lowerLimit t lim ≤ 0 := by
  cases lim with
  | none => exact lowestVal_nonpos t
  | some p => exact h.1

/-- Under well-formed Limits the upper limit of any representation is
non-negative. -/
theorem upperLimit_nonneg (t : Rep) (lim : Limits) (h : wfLimits lim) :
    0 ≤ upperLimit t lim := by
  cases lim with
  | none => exact maxVal_nonneg t
  | some p => exact h.2

/-- Under well-formed Limits the negated lower limit is non-negative. -/
theorem negativeLowerLimit_nonneg (t : Rep) (lim : Limits) (h : wfLimits lim) :
    0 ≤ negativeLowerLimit t lim := by
  unfold negativeLowerLimit
  split
  · exact maxVal_nonneg t
  · have := lowerLimit_nonpos t lim h
    linarith

/-- An Oracle value of a non-negative magnitude is non-negative. -/
theorem getValueResult_nonneg {t : Rep} {m : Mag} {v : ℚ}
    (hok : getValueResult t m = .ok v) (h : 0 ≤ m.val) : 0 ≤ v := by
  unfold getValueResult at hok
  split at hok
  · split at hok
    · cases hok
      exact h
    · cases hok
  · split at hok
    · cases hok
      exact roundRat_nonneg _ h
    · cases hok

/-- An Oracle value of a non-positive magnitude is non-positive. -/
theorem getValueResult_nonpos {t : Rep} {m : Mag} {v : ℚ}
    (hok : getValueResult t m = .ok v) (h : m.val ≤ 0) : v ≤ 0 := by
  unfold getValueResult at hok
  split at hok
  · split at hok
    · cases hok
      exact h
    · cases hok
  · split at hok
    · cases hok
      exact roundRat_nonpos _ h
    · cases hok

/-- The helper picking the higher of source-lowest and the destination lower
limit is non-positive under well-formed Limits. -/
theorem valueIsSourceLowest_nonpos (t u : Rep) (ulim : Limits) (h : wfLimits ulim) :
    valueIsSourceLowestUnlessDestLimitIsHigher t u ulim ≤ 0 := by
  unfold valueIsSourceLowestUnlessDestLimitIsHigher
  dsimp only
  split
  · exact roundQ_nonpos t (lowerLimit_nonpos u ulim h)
  · exact lowestVal_nonpos t

/-- The helper picking the lower of source-max and the destination upper
limit is non-negative under well-formed Limits. -/
theorem valueIsSourceHighest_nonneg (t u : Rep) (ulim : Limits) (h : wfLimits ulim) :
    0 ≤ valueIsSourceHighestUnlessDestLimitIsLower t u ulim := by
  unfold valueIsSourceHighestUnlessDestLimitIsLower
  dsimp only
  split
  · exact roundQ_nonneg t (upperLimit_nonneg u ulim h)
  · exact maxVal_nonneg t

/-- The destination lower limit expressed in the source is non-positive. -/
theorem valueIsLowestInDestination_nonpos (t u : Rep) (ulim : Limits) (h : wfLimits ulim) :
    valueIsLowestInDestination t u ulim ≤ 0 :=
  roundQ_nonpos t (lowerLimit_nonpos u ulim h)

/-- The destination upper limit expressed in the source is non-negative. -/
theorem valueIsHighestInDestination_nonneg (t u : Rep) (ulim : Limits) (h : wfLimits ulim) :
    0 ≤ valueIsHighestInDestination t u ulim :=
  roundQ_nonneg t (upperLimit_nonneg u ulim h)

/-- The max-mantissa loop stays non-negative. -/
theorem maxMantissaLoop_nonneg (p : Nat) :
    ∀ (fuel : Nat) (x last : ℚ), 0 ≤ x → 0 ≤ last → 0 ≤ maxMantissaLoop p fuel x last := by
  intro fuel
  induction fuel with
  | zero => intro x last _ hl; exact hl
  | succ n ih =>
      intro x last hx hl
      unfold maxMantissaLoop
      split
      · exact ih _ _ (roundRat_nonneg _ (by
          have := roundRat_nonneg p (by linarith : (0:ℚ) ≤ x + 1)
          linarith)) hx
      · exact hl

/-- The doubling loop stays non-negative. -/
theorem doubleUntilLoop_nonneg (p : Nat) (limit : ℚ) :
    ∀ (fuel : Nat) (x : ℚ), 0 ≤ x → 0 ≤ doubleUntilLoop p limit fuel x := by
  intro fuel
  induction fuel with
  | zero => intro x hx; exact hx
  | succ n ih =>
      intro x hx
      unfold doubleUntilLoop
      split
      · exact ih _ (roundRat_nonneg _ (by linarith))
      · exact hx

/-- The computed float boundary for an integer max is non-negative. -/
theorem computeValueMaxFloat_nonneg (p : Nat) {intMax : ℚ} (h : 0 ≤ intMax) :
    0 ≤ computeValueMaxFloat p intMax := by
  unfold computeValueMaxFloat
  dsimp only
  split
  · exact roundRat_nonneg _ h
  · exact doubleUntilLoop_nonneg p _ 200 _ (maxMantissaLoop_nonneg p _ 1 1 (by norm_num) (by norm_num))

/-- The float-to-int boundary value is non-negative under well-formed
Limits. -/
theorem valueIsMaxFloat_nonneg (t u : Rep) (ulim : Limits) (h : wfLimits ulim) :
    0 ≤ valueIsMaxFloatNotExceedingMaxInt t u ulim := by
  unfold valueIsMaxFloatNotExceedingMaxInt
  dsimp only
  split
  · exact computeValueMaxFloat_nonneg _ (maxVal_nonneg u)
  · exact roundQ_nonneg t (upperLimit_nonneg u ulim h)

/-- LowestOfLimitsDividedByValue is non-positive under well-formed Limits. -/
theorem lowestOfLimitsDividedByValue_nonpos (t : Rep) (m : Mag) (lim : Limits)
    (h : wfLimits lim) : lowestOfLimitsDividedByValue t m lim ≤ 0 := by
  unfold lowestOfLimitsDividedByValue divideByMag
  cases hok : getValueResult t m with
  | errCannotFit => exact le_refl 0
  | ok v =>
      by_cases hp : 0 < m.val
      · rw [if_pos hp]
        have hv : 0 ≤ v := getValueResult_nonneg hok (le_of_lt hp)
        exact roundQ_nonpos t (div_nonpos_iff.mpr (Or.inr
          ⟨lowerLimit_nonpos t lim h, hv⟩))
      · rw [if_neg hp]
        have hv : v ≤ 0 := getValueResult_nonpos hok (not_lt.mp hp)
        exact roundQ_nonpos t (div_nonpos_iff.mpr (Or.inl
          ⟨upperLimit_nonneg t lim h, hv⟩))

/-- HighestOfLimitsDividedByValue is non-negative under well-formed Limits. -/
theorem highestOfLimitsDividedByValue_nonneg (t : Rep) (m : Mag) (lim : Limits)
    (h : wfLimits lim) : 0 ≤ highestOfLimitsDividedByValue t m lim := by
  unfold highestOfLimitsDividedByValue
  dsimp only
  split
  · norm_num
  · split
    · exact maxVal_nonneg t
    · unfold divideByMag
      cases hok : getValueResult t m with
      | errCannotFit => exact le_refl 0
      | ok v =>
          by_cases hp : 0 < m.val
          · rw [if_pos hp]
            have hv : 0 ≤ v := getValueResult_nonneg hok (le_of_lt hp)
            exact roundQ_nonneg t (div_nonneg (upperLimit_nonneg t lim h) hv)
          · rw [if_neg hp]
            have hv : v ≤ 0 := getValueResult_nonpos hok (not_lt.mp hp)
            have hll := lowerLimit_nonpos t lim h
            have : 0 ≤ lowerLimit t lim / v := by
              rw [div_nonneg_iff]
              exact Or.inr ⟨hll, hv⟩
            exact roundQ_nonneg t this

/-- ClampLowestOfLimitsTimesInverseValue is non-positive under well-formed
Limits. -/
theorem clampLowest_nonpos (t : Rep) (m : Mag) (lim : Limits) (h : wfLimits lim) :
    clampLowestOfLimitsTimesInverseValue t m lim ≤ 0 := by
  unfold clampLowestOfLimitsTimesInverseValue
  dsimp only
  cases hok : getValueResult t (magInverse (magAbs m)) with
  | errCannotFit => exact lowestVal_nonpos t
  | ok d =>
      have hd : 0 ≤ d := by
        refine getValueResult_nonneg hok ?_
        show (0:ℚ) ≤ |m.val|⁻¹
        exact inv_nonneg.mpr (abs_nonneg _)
      by_cases hp : 0 < m.val
      · simp only [if_pos hp]
        split
        · exact lowestVal_nonpos t
        · exact roundQ_nonpos t
            (mul_nonpos_of_nonpos_of_nonneg (lowerLimit_nonpos t lim h) hd)
      · simp only [if_neg hp]
        split
        · exact lowestVal_nonpos t
        · have hup := upperLimit_nonneg t lim h
          exact roundQ_nonpos t
            (mul_nonpos_of_nonpos_of_nonneg (by linarith) hd)

/-- ClampHighestOfLimitsTimesInverseValue is non-negative under well-formed
Limits. -/
theorem clampHighest_nonneg (t : Rep) (m : Mag) (lim : Limits) (h : wfLimits lim) :
    0 ≤ clampHighestOfLimitsTimesInverseValue t m lim := by
  unfold clampHighestOfLimitsTimesInverseValue
  dsimp only
  cases hok : getValueResult t (magInverse (magAbs m)) with
  | errCannotFit => exact maxVal_nonneg t
  | ok d =>
      have hd : 0 ≤ d := by
        refine getValueResult_nonneg hok ?_
        show (0:ℚ) ≤ |m.val|⁻¹
        exact inv_nonneg.mpr (abs_nonneg _)
      by_cases hp : 0 < m.val
      · simp only [if_pos hp]
        split
        · exact maxVal_nonneg t
        · exact roundQ_nonneg t (mul_nonneg (upperLimit_nonneg t lim h) hd)
      · simp only [if_neg hp]
        split
        · exact maxVal_nonneg t
        · exact roundQ_nonneg t (mul_nonneg (negativeLowerLimit_nonneg t lim h) hd)

/-- MinGood of a cast is non-positive under well-formed Limits. -/
theorem minGoodCast_nonpos (t u : Rep) (ulim : Limits) (h : wfLimits ulim) :
    minGoodCast t u ulim ≤ 0 := by
  unfold minGoodCast
  split
  · split
    · exact valueIsSourceLowest_nonpos t u ulim h
    · split
      · exact valueIsSourceLowest_nonpos t u ulim h
      · split
        · norm_num
        · split
          · exact valueIsSourceLowest_nonpos t u ulim h
          · exact valueIsLowestInDestination_nonpos t u ulim h
  · split
    · split
      · exact valueIsSourceLowest_nonpos t u ulim h
      · exact valueIsLowestInDestination_nonpos t u ulim h
    · exact valueIsLowestInDestination_nonpos t u ulim h

/-- MaxGood of a cast is non-negative under well-formed Limits. -/
theorem maxGoodCast_nonneg (t u : Rep) (ulim : Limits) (h : wfLimits ulim) :
    0 ≤ maxGoodCast t u ulim := by
  unfold maxGoodCast
  split
  · split
    · split
      · exact valueIsSourceHighest_nonneg t u ulim h
      · exact valueIsHighestInDestination_nonneg t u ulim h
    · exact valueIsSourceHighest_nonneg t u ulim h
  · split
    · split
      · exact valueIsSourceHighest_nonneg t u ulim h
      · exact valueIsHighestInDestination_nonneg t u ulim h
    · exact valueIsMaxFloat_nonneg t u ulim h

/-- MinGood of a scale is non-positive under well-formed Limits. -/
theorem minGoodMul_nonpos (t : Rep) (m : Mag) (lim : Limits) (h : wfLimits lim) :
    minGoodMul t m lim ≤ 0 := by
  unfold minGoodMul
  split
  · norm_num
  · split
    · split
      · exact lowestOfLimitsDividedByValue_nonpos t m lim h
      · exact clampLowest_nonpos t m lim h
    · norm_num

/-- MaxGood of a scale is non-negative under well-formed Limits. -/
theorem maxGoodMul_nonneg (t : Rep) (m : Mag) (lim : Limits) (h : wfLimits lim) :
    0 ≤ maxGoodMul t m lim := by
  unfold maxGoodMul
  split
  · norm_num
  · split
    · exact highestOfLimitsDividedByValue_nonneg t m lim h
    · split
      · exact clampHighest_nonneg t m lim h
      · split
        · split
          · exact highestOfLimitsDividedByValue_nonneg t m lim h
          · exact clampHighest_nonneg t m lim h
        · norm_num

/-- The bound pair of every operation keeps the sign invariant, by strong
induction on the size of the operation (the sequence case synthesizes new
Limits from the suffix bounds, which the induction shows are themselves
well-formed). -/
theorem goodBounds_wf :
    ∀ (n : Nat) (op : Op) (lim : Limits), sizeOf op ≤ n → wfLimits lim →
      (goodBounds op lim).1 ≤ 0 ∧ 0 ≤ (goodBounds op lim).2 := by
  intro n
  induction n with
  | zero =>
      intro op lim hsz _
      exfalso
      cases op <;> simp at hsz
  | succ n ih =>
      intro op lim hsz hwf
      cases op with
      | staticCast t u =>
          rw [show goodBounds (.staticCast t u) lim
                = (minGoodCast t u lim, maxGoodCast t u lim) from by simp [goodBounds]]
          exact ⟨minGoodCast_nonpos t u lim hwf, maxGoodCast_nonneg t u lim hwf⟩
      | multiplyTypeBy t m =>
          rw [show goodBounds (.multiplyTypeBy t m) lim
                = (minGoodMul t m lim, maxGoodMul t m lim) from by simp [goodBounds]]
          exact ⟨minGoodMul_nonpos t m lim hwf, maxGoodMul_nonneg t m lim hwf⟩
      | opSequence op1 rest =>
          cases rest with
          | nil =>
              rw [show goodBounds (.opSequence op1 []) lim = goodBounds op1 lim from by
                simp [goodBounds]]
              refine ih op1 lim ?_ hwf
              simp at hsz
              omega
          | cons op2 rest2 =>
              rw [show goodBounds (.opSequence op1 (op2 :: rest2)) lim
                    = goodBounds op1 (some (goodBounds (.opSequence op2 rest2) lim)) from by
                simp [goodBounds]]
              have hsfx : sizeOf (Op.opSequence op2 rest2) ≤ n := by
                simp at hsz ⊢
                omega
              have hwf2 := ih (Op.opSequence op2 rest2) lim hsfx hwf
              have h1 : sizeOf op1 ≤ n := by
                simp at hsz
                omega
              exact ih op1 (some (goodBounds (.opSequence op2 rest2) lim)) h1
                ⟨hwf2.1, hwf2.2⟩

/-- C9: for every operation and every well-formed Limits argument the MinGood
bound is non-positive and the MaxGood bound is non-negative, and consequently
the value zero is never flagged as overflowing by the runtime checker for any
analyzable operation. -/
theorem bounds_invariant_zero_safe (op : Op) (lim : Limits) (h : wfLimits lim) :
    minGood op lim ≤ 0 ∧ 0 ≤ maxGood op lim
    ∧ wouldInputProduceOverflow op 0 = false := by
  have hmain := goodBounds_wf (sizeOf op) op lim (le_refl _) h
  have hvoid := goodBounds_wf (sizeOf op) op noLimits (le_refl _) trivial
  refine ⟨hmain.1, hmain.2, ?_⟩
  unfold wouldInputProduceOverflow isTooSmall isTooLarge
  have h1 : decide ((0:ℚ) < minGood op noLimits) = false := by
    simp only [decide_eq_false_iff_not, not_lt]
    exact hvoid.1
  have h2 : decide (maxGood op noLimits < (0:ℚ)) = false := by
    simp only [decide_eq_false_iff_not, not_lt]
    exact hvoid.2
  split <;> split <;> simp [h1, h2]

/-- C9 witness: a doubling on int8 under the void Limits. -/
theorem bounds_invariant_zero_safe_witness :
    wfLimits noLimits
    ∧ (minGood (.multiplyTypeBy .i8 ⟨2, true⟩) noLimits ≤ 0
        ∧ 0 ≤ maxGood (.multiplyTypeBy .i8 ⟨2, true⟩) noLimits
        ∧ wouldInputProduceOverflow (.multiplyTypeBy .i8 ⟨2, true⟩) 0 = false) :=
  ⟨trivial, bounds_invariant_zero_safe (.multiplyTypeBy .i8 ⟨2, true⟩) noLimits trivial⟩

end AuSpec
